import Mathlib

/-!
Verification development for the acme client library (package `acme`).

The definitions below are a shallow embedding of the Go source:
the event wire codec (`getec`, `geten`, `gete`, `ReadEvent`,
`WriteEvent`), the process-wide window registry (`dropLocked`, `Open`'s
insertion, `Show`), the command dispatcher (`execute`), `Sort`'s line
processing, and `Err`'s error-window name derivation.

Modelling conventions:
  * the byte/rune stream read from a window's `event` file is a
    `List Char`; end of stream corresponds to the transport returning
    `io.EOF` (whose `Error()` string is "EOF");
  * Go panics inside the decoder (recovered at the `ReadEvent`
    boundary) are modelled by `Except String`, carrying the panic
    message; `ReadEvent`'s `recover` adds the "malformed acme event: "
    error text;
  * the numeric event fields (`Q0`, `Q1`, `Flag`, `Nr`) are decoded
    from decimal digit runs and are always non-negative, so they are
    modelled as `Nat` (int64 overflow of the accumulator is not
    modelled);
  * `Text`/`Arg`/`Loc` byte slices are modelled as the rune lists they
    encode.
-/

namespace Acme

/-- `eventSize` from the source: the maximum rune count of an event's text. -/
def eventSize : Nat := 256

/-- Model of the Go `Event` struct.  `nb` exists on the struct but is never
assigned by the decoder.  A freshly allocated (`new(Event)`) value is
`Event.empty` below. -/
structure Event where
  c1 : Char
  c2 : Char
  q0 : Nat
  q1 : Nat
  origQ0 : Nat
  origQ1 : Nat
  flag : Nat
  nb : Nat
  nr : Nat
  text : List Char
  arg : List Char
  loc : List Char
  deriving Repr, DecidableEq

/-- The zero value of `Event` (Go `new(Event)`): zero runes, empty slices. -/
def Event.empty : Event :=
  { c1 := Char.ofNat 0, c2 := Char.ofNat 0, q0 := 0, q1 := 0,
    origQ0 := 0, origQ1 := 0, flag := 0, nb := 0, nr := 0,
    text := [], arg := [], loc := [] }

/-- `getec`: read one rune from the buffered event stream.  A read failure
(here: end of stream, `io.EOF`) panics with the error's message. -/
def getec : List Char → Except String (Char × List Char)
  | [] => .error "EOF"
  | c :: s => .ok (c, s)

/-- Loop body of `geten`: read runes while they are decimal digits,
accumulating `n = n*10 + (c - '0')`; the terminating rune must be a
single space, otherwise panic "event number syntax". -/
def getenLoop : List Char → Nat → Except String (Nat × List Char)
  | [], _ => .error "EOF"
  | c :: s, n =>
    if c < '0' ∨ '9' < c then
      if c = ' ' then .ok (n, s) else .error "event number syntax"
    else
      getenLoop s (n * 10 + (c.toNat - '0'.toNat))

/-- `geten`: decode one space-terminated decimal field. -/
def geten (s : List Char) : Except String (Nat × List Char) :=
  getenLoop s 0

/-- Read exactly `n` runes (the loop filling `r` in `gete`). -/
def getText : Nat → List Char → Except String (List Char × List Char)
  | 0, s => .ok ([], s)
  | n + 1, s => do
    let (c, s) ← getec s
    let (cs, s) ← getText n s
    return (c :: cs, s)

/-- `gete`: decode one raw event record
`C1 C2 Q0 SP Q1 SP Flag SP Nr SP <Nr runes> NL` into a freshly
allocated `Event` (so `origQ0`/`origQ1`/`nb`/`arg`/`loc` keep their zero
values).  `Nr > eventSize` panics "event string too long"; a missing
trailing newline panics "phase error". -/
def gete (s : List Char) : Except String (Event × List Char) := do
  let (c1, s) ← getec s
  let (c2, s) ← getec s
  let (q0, s) ← geten s
  let (q1, s) ← geten s
  let (flag, s) ← geten s
  let (nr, s) ← geten s
  if nr > eventSize then
    .error "event string too long"
  else do
    let (text, s) ← getText nr s
    let (nl, s) ← getec s
    if nl ≠ '\n' then
      .error "phase error"
    else
      return ({ Event.empty with
                  c1 := c1, c2 := c2, q0 := q0, q1 := q1,
                  flag := flag, nr := nr, text := text }, s)

/-- `ReadEvent`: decode the next logical event.  Reads the primary
record, records `OrigQ0/OrigQ1`, then applies the expansion rule
(flag bit 2) and the chorded-argument rule (flag bit 8).  The
`recover` at the top of the Go function turns any decoder panic into
the error "malformed acme event: <message>" with no event returned. -/
def ReadEvent (s : List Char) : Except String (Event × List Char) :=
  match go s with
  | .ok r => .ok r
  | .error m => .error ("malformed acme event: " ++ m)
where
  go (s : List Char) : Except String (Event × List Char) := do
    let (e, s) ← gete s
    let e := { e with origQ0 := e.q0, origQ1 := e.q1 }
    -- expansion
    let (e, s) ←
      if e.flag &&& 2 ≠ 0 then do
        let (e2, s) ← gete s
        if e.q0 = e.q1 then
          pure ({ e2 with origQ0 := e.q0, origQ1 := e.q1, flag := e.flag }, s)
        else
          pure (e, s)
      else
        pure (e, s)
    -- chorded argument
    if e.flag &&& 8 ≠ 0 then do
      let (e3, s) ← gete s
      let (e4, s) ← gete s
      pure ({ e with arg := e3.text, loc := e4.text }, s)
    else
      pure (e, s)

/-- Decimal digit character for `d < 10` (the digits emitted by Go's
`%d` formatting of a non-negative value). -/
def digitChar : Nat → Char
  | 0 => '0' | 1 => '1' | 2 => '2' | 3 => '3' | 4 => '4'
  | 5 => '5' | 6 => '6' | 7 => '7' | 8 => '8' | _ => '9'

/-- Fuel-indexed decimal printer (most significant digit first). -/
def natDigitsGo : Nat → Nat → List Char
  | 0, _ => []
  | fuel + 1, n =>
    if n < 10 then [digitChar n]
    else natDigitsGo fuel (n / 10) ++ [digitChar (n % 10)]

/-- The decimal digits of `n`, as printed by Go's `%d` for a
non-negative value. -/
def natDigits (n : Nat) : List Char := natDigitsGo (n + 1) n

/-- `WriteEvent`'s wire bytes: `fmt.Fprintf(&buf, "%c%c%d %d \n", e.C1,
e.C2, e.Q0, e.Q1)` — the two tag runes with no separator, decimal `Q0`,
a space, decimal `Q1`, a space, and a newline. -/
def WriteEvent (e : Event) : List Char :=
  e.c1 :: e.c2 :: (natDigits e.q0 ++ ' ' :: natDigits e.q1 ++ [' ', '\n'])

/-! ## Window registry

The source keeps the live windows in an intrusive doubly linked list
(`windows`/`last` globals, `w.prev`/`w.next` fields) guarded by
`windowsMu`.  We model the registry as the list of window ids in chain
order: `Open` links a new window at the tail; `dropLocked`'s guard
`w.prev == nil && w.next == nil && windows != w` holds (under the link
invariant: a window's links are non-nil iff it is a member, except for
a sole member, which `windows` points at) exactly when the window is
not a member, and its unlinking removes the window from the chain.
`os.Exit(0)` is modelled by the returned `Bool`. -/

/-- `dropLocked`: remove `w` from the registry; no-op when `w` is not a
member.  Returns the new registry and whether `os.Exit(0)` ran (auto-exit
enabled and the registry became empty). -/
def dropLocked (autoExit : Bool) (r : List Nat) (w : Nat) : List Nat × Bool :=
  if w ∈ r then
    let r' := r.erase w
    (r', autoExit && r'.isEmpty)
  else
    (r, false)

/-- `Open`'s registry linkage: the new window is appended at the tail
(`w.prev = last; last.next = w; last = w`). -/
def insertWin (r : List Nat) (w : Nat) : List Nat := r ++ [w]

/-- Insert a sequence of windows, in order, each at the tail. -/
def insertAll (r : List Nat) (ws : List Nat) : List Nat := ws.foldl insertWin r

/-- The successive registry states produced by removing the windows of
`ws`, in order (auto-exit behaviour does not affect the states). -/
def removeStates (autoExit : Bool) (r : List Nat) : List Nat → List (List Nat)
  | [] => []
  | w :: ws =>
    let r' := (dropLocked autoExit r w).1
    r' :: removeStates autoExit r' ws

/-- `Show`'s registry scan: the first window whose cached `name` field
matches (the source's `for w := windows; w != nil; w = w.next` loop). -/
def findByName (names : Nat → String) (name : String) (r : List Nat) : Option Nat :=
  r.find? (fun w => names w == name)

/-- `Show`: look up the first registered window with the given name.
`ctlOk w` tells whether writing the "show" control command to window
`w` succeeds.  On a failed write, the window is dropped (under the
lock) and nil is returned.  Result: the returned window, the new
registry, and whether auto-exit terminated the process. -/
def Show (names : Nat → String) (ctlOk : Nat → Bool) (autoExit : Bool)
    (name : String) (r : List Nat) : Option Nat × List Nat × Bool :=
  match findByName names name r with
  | none => (none, r, false)
  | some w =>
    if ctlOk w then (some w, r, false)
    else
      let (r', ex) := dropLocked autoExit r w
      (none, r', ex)

/-! ## Event delivery (`eventReader`)

`eventReader` loops `ReadEvent`, sending each decoded event on the
window's channel; on a decode/transport failure it sends one empty
sentinel event, drops the window from the registry, closes the channel
and returns.  We model one run as the finite trace of its channel and
registry actions over the (finite) raw stream. -/

/-- An observable action of the event-delivery task. -/
inductive Action where
  | send (e : Event)
  | drop
  | close
  deriving Repr, DecidableEq

/-- Fuel-indexed body of `eventReader`; `s.length + 1` fuel never runs
out because every successful `ReadEvent` consumes at least one rune
(proved below). -/
def eventReaderGo : Nat → List Char → List Action
  | 0, _ => []
  | fuel + 1, s =>
    match ReadEvent s with
    | .ok (e, s') => .send e :: eventReaderGo fuel s'
    | .error _ => [.send Event.empty, .drop, .close]

/-- The trace of one `eventReader` run over the raw stream `s`. -/
def eventReader (s : List Char) : List Action :=
  eventReaderGo (s.length + 1) s

/-! ## Command dispatcher (`execute`) -/

/-- The runes Go's `unicode.IsSpace` recognises in the Latin-1 range
(what `strings.TrimSpace` trims for the texts at issue). -/
def isSpaceGo (c : Char) : Bool :=
  c == ' ' || c == '\t' || c == '\n' || c == Char.ofNat 11 ||
  c == Char.ofNat 12 || c == '\r' || c == Char.ofNat 0x85 || c == Char.ofNat 0xA0

/-- `strings.TrimSpace`: drop leading and trailing space runes. -/
def trimSpace (l : List Char) : List Char :=
  ((l.dropWhile isSpaceGo).reverse.dropWhile isSpaceGo).reverse

/-- The verb/argument split at the top of `execute`: `verb` is the text
up to the first space or tab (`strings.IndexAny(verb, " \t")`), `arg`
the trimmed remainder; with no space or tab the whole command is the
verb and `arg` is empty. -/
def splitVerbArg (cmd : List Char) : List Char × List Char :=
  match cmd.findIdx? (fun c => c == ' ' || c == '\t') with
  | none => (cmd, [])
  | some i => (cmd.take i, trimSpace (cmd.drop (i + 1)))

/-- The reflected signature of a verb-specific `Exec<verb>` method:
`reflect.Type`'s `NumIn`/`NumOut`, whether the single result is
`error`, and whether the single parameter is `string`. -/
structure MethodSig where
  numIn : Nat
  numOut : Nat
  outIsError : Bool
  inIsString : Bool
  deriving Repr, DecidableEq

/-- The observable effect of one `execute` call: a verb-specific method
invocation (with its argument, if the method takes one), the generic
`handler.Execute` fallback on the unchanged command, or an error report
through the error-window path. -/
inductive ExecEffect where
  | callVerb (verb : List Char) (arg : Option (List Char))
  | fallback (cmd : List Char)
  | reportErr (what : String)
  deriving Repr, DecidableEq

/-- The pluggable handler: `findMethod v` models
`reflect.ValueOf(h).MethodByName("Exec" + v)` (`none` = invalid), and
`executeCb`/`lookCb` are the `EventHandler` interface methods. -/
structure Handler where
  findMethod : List Char → Option MethodSig
  executeCb : List Char → Bool
  lookCb : List Char → Bool

/-- `execute`: split the command into verb and argument, look up the
verb-specific method; with no method fall back to `handler.Execute` on
the unchanged command.  A found method commits to handling the event
(result `true`): signature mismatches are reported via `Errf`, a
matching method is invoked with the argument iff it takes one. -/
def execute (h : Handler) (cmd : List Char) : Bool × ExecEffect :=
  let (verb, arg) := splitVerbArg cmd
  match h.findMethod verb with
  | none => (h.executeCb cmd, .fallback cmd)
  | some t =>
    if 2 ≤ t.numOut then (true, .reportErr "too many results")
    else if t.numOut = 1 && !t.outIsError then (true, .reportErr "return type not error")
    else if 2 ≤ t.numIn then (true, .reportErr "too many arguments")
    else if t.numIn = 0 && !arg.isEmpty then (true, .reportErr "takes no arguments")
    else if t.numIn = 1 && !t.inIsString then (true, .reportErr "argument type not string")
    else (true, .callVerb verb (if t.numIn = 1 then some arg else none))

/-- The command `EventLoop` dispatches for an execute-class event:
`strings.TrimSpace(string(e.Text))`. -/
def execEventCmd (e : Event) : List Char := trimSpace e.text

/-! ## Sort -/

/-- `strings.Split(data, "\n")`: the newline-separated pieces; always
at least one piece, and one trailing empty piece per trailing newline. -/
def splitNL : List Char → List (List Char)
  | [] => [[]]
  | '\n' :: rest => [] :: splitNL rest
  | c :: rest =>
    match splitNL rest with
    | [] => [[c]]
    | l :: ls => (c :: l) :: ls

/-- `strings.Join(lines, "\n")`. -/
def joinNL : List (List Char) → List Char
  | [] => []
  | [l] => l
  | l :: ls => l ++ '\n' :: joinNL ls

/-- Insert `x` into `ys` before the first element `y` with `le x y`
(the merge step of a stable sort). -/
def insSorted (le : List Char → List Char → Bool) (x : List Char) :
    List (List Char) → List (List Char)
  | [] => [x]
  | y :: ys => if le x y then x :: y :: ys else y :: insSorted le x ys

/-- Stable insertion sort; models `sort.SliceStable` with
`le x y := !(less y x)`. -/
def stableSort (le : List Char → List Char → Bool) :
    List (List Char) → List (List Char)
  | [] => []
  | x :: xs => insSorted le x (stableSort le xs)

/-- The body of `Sort` on the text read from `xdata`: split into lines,
set the trailing-newline suffix aside if the last line is empty,
stable-sort with the caller's `less`, re-join and re-append the
suffix.  (The surrounding address read/re-select is transport I/O.) -/
def sortLines (less : List Char → List Char → Bool) (data : List Char) : List Char :=
  let lines := splitNL data
  if lines.getLast? = some [] then
    joinNL (stableSort (fun x y => ! less y x) lines.dropLast) ++ ['\n']
  else
    joinNL (stableSort (fun x y => ! less y x) lines)

/-- A concrete ascending (lexicographic) comparator for examples. -/
def ascLess : List Char → List Char → Bool
  | _, [] => false
  | [], _ => true
  | x :: xs, y :: ys => if x = y then ascLess xs ys else decide (x < y)

/-! ## Err: error-window name derivation -/

/-- `path.Split`: split after the final slash; with no slash the
directory part is empty. -/
def pathSplit (p : List Char) : List Char × List Char :=
  if p.contains '/' then
    let i := p.length - p.reverse.findIdx (fun c => c == '/')
    (p.take i, p.drop i)
  else ([], p)

/-- The error-window name derived by `Err` from the source path `src`:
the directory part of `src`, with the values `"/"` and `"."` normalized
to empty, suffixed with `"+Errors"`. -/
def errName (src : List Char) : List Char :=
  let dir := (pathSplit src).1
  let dir := if dir = ['/'] ∨ dir = ['.'] then [] else dir
  dir ++ "+Errors".toList

/-- The decoder's four leading field readers (`getec`, `getec`,
`geten`, `geten`), applied in `gete`'s order: the tag runes and the
two range addresses. -/
def readTagsRange (s : List Char) :
    Except String ((Char × Char × Nat × Nat) × List Char) := do
  let (c1, s) ← getec s
  let (c2, s) ← getec s
  let (q0, s) ← geten s
  let (q1, s) ← geten s
  return ((c1, c2, q0, q1), s)

/-- A concrete handler exposing exactly one verb-specific method,
`ExecFoo(string)`, used to exercise the dispatcher. -/
def sampleHandler : Handler where
  findMethod v := if v = "Foo".toList then some ⟨1, 0, false, true⟩ else none
  executeCb _ := true
  lookCb _ := true

/-! ## Helper lemmas: `Except` plumbing and stream consumption -/

theorem except_bind_ok {α β : Type} {x : Except String α}
    {f : α → Except String β} {b : β} :
    x >>= f = .ok b ↔ ∃ a, x = .ok a ∧ f a = .ok b := by
  cases x <;> simp [Bind.bind, Except.bind]

theorem getec_ok {s : List Char} {c : Char} {s' : List Char}
    (h : getec s = .ok (c, s')) : s = c :: s' := by
  cases s with
  | nil => simp [getec] at h
  | cons a t =>
    simp only [getec, Except.ok.injEq, Prod.mk.injEq] at h
    rw [h.1, h.2]

theorem getec_length {s : List Char} {c : Char} {s' : List Char}
    (h : getec s = .ok (c, s')) : s'.length < s.length := by
  rw [getec_ok h]; exact Nat.lt_succ_self _

theorem getenLoop_length {s : List Char} {a n : Nat} {s' : List Char}
    (h : getenLoop s a = .ok (n, s')) : s'.length < s.length := by
  induction s generalizing a with
  | nil => simp [getenLoop] at h
  | cons c t ih =>
    simp only [getenLoop] at h
    split at h
    · split at h
      · simp only [Except.ok.injEq, Prod.mk.injEq] at h
        rw [← h.2]; exact Nat.lt_succ_self _
      · simp at h
    · exact Nat.lt_succ_of_lt (ih h)

theorem geten_length {s : List Char} {n : Nat} {s' : List Char}
    (h : geten s = .ok (n, s')) : s'.length < s.length :=
  getenLoop_length h

theorem getText_length {n : Nat} {s : List Char} {t s' : List Char}
    (h : getText n s = .ok (t, s')) : s'.length ≤ s.length := by
  induction n generalizing s t with
  | zero =>
    simp only [getText, pure, Except.pure, Except.ok.injEq, Prod.mk.injEq] at h
    rw [← h.2]
  | succ m ih =>
    simp only [getText] at h
    obtain ⟨⟨c, s1⟩, hc, h⟩ := except_bind_ok.mp h
    obtain ⟨⟨cs, s2⟩, hcs, h⟩ := except_bind_ok.mp h
    have hc' : getec s = .ok (c, s1) := hc
    have hcs' : getText m s1 = .ok (cs, s2) := hcs
    have h' : (Except.ok (c :: cs, s2) : Except String (List Char × List Char))
        = .ok (t, s') := h
    simp only [Except.ok.injEq, Prod.mk.injEq] at h'
    obtain ⟨-, h2⟩ := h'
    subst h2
    have := ih hcs'
    have := getec_length hc'
    omega


theorem gete_length {s : List Char} {e : Event} {s' : List Char}
    (h : gete s = .ok (e, s')) : s'.length < s.length := by
  simp only [gete] at h
  obtain ⟨⟨c1, s1⟩, h1, h⟩ := except_bind_ok.mp h
  obtain ⟨⟨c2, s2⟩, h2, h⟩ := except_bind_ok.mp h
  obtain ⟨⟨q0, s3⟩, h3, h⟩ := except_bind_ok.mp h
  obtain ⟨⟨q1, s4⟩, h4, h⟩ := except_bind_ok.mp h
  obtain ⟨⟨fl, s5⟩, h5, h⟩ := except_bind_ok.mp h
  obtain ⟨⟨nr, s6⟩, h6, h⟩ := except_bind_ok.mp h
  split at h
  · simp at h
  · obtain ⟨⟨tx, s7⟩, h7, h⟩ := except_bind_ok.mp h
    obtain ⟨⟨nl, s8⟩, h8, h⟩ := except_bind_ok.mp h
    split at h
    · simp at h
    · simp only [pure, Except.pure, Except.ok.injEq, Prod.mk.injEq] at h
      rw [← h.2]
      calc s8.length < s7.length := getec_length h8
        _ ≤ s6.length := getText_length h7
        _ < s5.length := geten_length h6
        _ < s4.length := geten_length h5
        _ < s3.length := geten_length h4
        _ < s2.length := geten_length h3
        _ < s1.length := getec_length h2
        _ < s.length := getec_length h1

theorem except_pure_ok {α β : Type} {a : α} {b : β} {c : α} {d : β}
    (h : (pure (a, b) : Except String (α × β)) = .ok (c, d)) : a = c ∧ b = d := by
  simp only [pure, Except.pure, Except.ok.injEq, Prod.mk.injEq] at h
  exact h

theorem ReadEvent_go_length {s : List Char} {e : Event} {s' : List Char}
    (h : ReadEvent.go s = .ok (e, s')) : s'.length < s.length := by
  simp only [ReadEvent.go] at h
  obtain ⟨⟨e1, s1⟩, h1, h⟩ := except_bind_ok.mp h
  have h1' : gete s = .ok (e1, s1) := h1
  have L1 : s1.length < s.length := gete_length h1'
  split at h
  · -- expansion bit set: a second record is read
    obtain ⟨⟨e2, s2⟩, h2, h⟩ := except_bind_ok.mp h
    have h2' : gete s1 = .ok (e2, s2) := h2
    have L2 : s2.length < s1.length := gete_length h2'
    split at h <;> simp only [pure_bind] at h <;> split at h
    · obtain ⟨⟨e3, s3⟩, h3, h⟩ := except_bind_ok.mp h
      obtain ⟨⟨e4, s4⟩, h4, h⟩ := except_bind_ok.mp h
      have h3' : gete s2 = .ok (e3, s3) := h3
      have h4' : gete s3 = .ok (e4, s4) := h4
      have hs : s4 = s' := (except_pure_ok h).2
      subst hs
      have := gete_length h3'
      have := gete_length h4'
      omega
    · have hs : s2 = s' := (except_pure_ok h).2
      subst hs
      omega
    · obtain ⟨⟨e3, s3⟩, h3, h⟩ := except_bind_ok.mp h
      obtain ⟨⟨e4, s4⟩, h4, h⟩ := except_bind_ok.mp h
      have h3' : gete s2 = .ok (e3, s3) := h3
      have h4' : gete s3 = .ok (e4, s4) := h4
      have hs : s4 = s' := (except_pure_ok h).2
      subst hs
      have := gete_length h3'
      have := gete_length h4'
      omega
    · have hs : s2 = s' := (except_pure_ok h).2
      subst hs
      omega
  · -- no expansion
    simp only [pure_bind] at h
    split at h
    · obtain ⟨⟨e3, s3⟩, h3, h⟩ := except_bind_ok.mp h
      obtain ⟨⟨e4, s4⟩, h4, h⟩ := except_bind_ok.mp h
      have h3' : gete s1 = .ok (e3, s3) := h3
      have h4' : gete s3 = .ok (e4, s4) := h4
      have hs : s4 = s' := (except_pure_ok h).2
      subst hs
      have := gete_length h3'
      have := gete_length h4'
      omega
    · have hs : s1 = s' := (except_pure_ok h).2
      subst hs
      omega

theorem ReadEvent_length {s : List Char} {e : Event} {s' : List Char}
    (h : ReadEvent s = .ok (e, s')) : s'.length < s.length := by
  unfold ReadEvent at h
  split at h
  · rename_i r hg
    simp only [Except.ok.injEq] at h
    subst h
    exact ReadEvent_go_length hg
  · simp at h

theorem eventReaderGo_trace (fuel : Nat) :
    ∀ s : List Char, s.length < fuel →
      ∃ es : List Event, eventReaderGo fuel s =
        es.map Action.send ++ [Action.send Event.empty, Action.drop, Action.close] := by
  induction fuel with
  | zero => intro s h; omega
  | succ f ih =>
    intro s h
    simp only [eventReaderGo]
    cases hr : ReadEvent s with
    | error m => exact ⟨[], rfl⟩
    | ok p =>
      obtain ⟨e, s'⟩ := p
      have hlt : s'.length < f := Nat.lt_of_lt_of_le (ReadEvent_length hr)
        (Nat.le_of_lt_succ h)
      obtain ⟨es, he⟩ := ih s' hlt
      exact ⟨e :: es, by simp [he]⟩

/-! ## Helper lemmas: decimal printing and parsing -/

theorem getenLoop_digits (ds : List Char) (hd : ∀ c ∈ ds, ¬(c < '0' ∨ '9' < c)) :
    ∀ (rest : List Char) (a : Nat),
      getenLoop (ds ++ ' ' :: rest) a =
        .ok (ds.foldl (fun m c => m * 10 + (c.toNat - '0'.toNat)) a, rest) := by
  induction ds with
  | nil =>
    intro rest a
    simp [getenLoop]
  | cons c ds ih =>
    intro rest a
    have hc : ¬(c < '0' ∨ '9' < c) := hd c (List.mem_cons_self c ds)
    simp only [List.cons_append, getenLoop, List.foldl_cons]
    rw [if_neg hc]
    exact ih (fun x hx => hd x (List.mem_cons_of_mem c hx)) rest _

theorem digitChar_digit (d : Nat) (h : d < 10) :
    ¬(digitChar d < '0' ∨ '9' < digitChar d) := by
  interval_cases d <;> decide

theorem digitChar_toNat (d : Nat) (h : d < 10) :
    (digitChar d).toNat - '0'.toNat = d := by
  interval_cases d <;> decide

theorem natDigitsGo_digit (fuel : Nat) :
    ∀ n, n < fuel → ∀ c ∈ natDigitsGo fuel n, ¬(c < '0' ∨ '9' < c) := by
  induction fuel with
  | zero => intro n h; omega
  | succ f ih =>
    intro n h c hc
    simp only [natDigitsGo] at hc
    split at hc
    · rename_i h10
      simp only [List.mem_singleton] at hc
      exact hc ▸ digitChar_digit n h10
    · rename_i h10
      rcases List.mem_append.mp hc with hm | hm
      · have hlt : n / 10 < f :=
          Nat.lt_of_lt_of_le (Nat.div_lt_self (by omega) (by omega)) (Nat.le_of_lt_succ h)
        exact ih (n / 10) hlt c hm
      · simp only [List.mem_singleton] at hm
        exact hm ▸ digitChar_digit (n % 10) (Nat.mod_lt n (by omega))

theorem natDigitsGo_foldl (fuel : Nat) :
    ∀ n, n < fuel → ∀ a : Nat,
      (natDigitsGo fuel n).foldl (fun m c => m * 10 + (c.toNat - '0'.toNat)) a =
        a * 10 ^ (natDigitsGo fuel n).length + n := by
  induction fuel with
  | zero => intro n h; omega
  | succ f ih =>
    intro n h a
    simp only [natDigitsGo]
    split
    · rename_i h10
      simp only [List.foldl_cons, List.foldl_nil, List.length_singleton]
      rw [digitChar_toNat n h10]
      ring
    · rename_i h10
      have hlt : n / 10 < f :=
        Nat.lt_of_lt_of_le (Nat.div_lt_self (by omega) (by omega)) (Nat.le_of_lt_succ h)
      rw [List.foldl_append, List.length_append]
      rw [ih (n / 10) hlt a]
      simp only [List.foldl_cons, List.foldl_nil, List.length_singleton]
      rw [digitChar_toNat (n % 10) (Nat.mod_lt n (by omega))]
      rw [pow_succ]
      have := Nat.div_add_mod n 10
      ring_nf
      omega

theorem geten_natDigits (n : Nat) (rest : List Char) :
    geten (natDigits n ++ ' ' :: rest) = .ok (n, rest) := by
  unfold geten natDigits
  rw [getenLoop_digits _ (natDigitsGo_digit _ n (Nat.lt_succ_self n))]
  rw [natDigitsGo_foldl _ n (Nat.lt_succ_self n)]
  simp

/-! ## Helper lemmas: line splitting and stable sorting -/

theorem splitNL_ne_nil (d : List Char) : splitNL d ≠ [] := by
  cases d with
  | nil => simp [splitNL]
  | cons c rest =>
    by_cases hc : c = '\n'
    · subst hc; simp [splitNL]
    · simp only [splitNL, hc]
      cases hs : splitNL rest <;> simp

theorem splitNL_newline (d : List Char) :
    splitNL (d ++ ['\n']) = splitNL d ++ [[]] := by
  induction d with
  | nil => rfl
  | cons c rest ih =>
    by_cases hc : c = '\n'
    · subst hc
      simp only [List.cons_append, splitNL, List.append_eq, ih]
    · simp only [List.cons_append, splitNL, hc, ih]
      cases hs : splitNL rest with
      | nil => exact absurd hs (splitNL_ne_nil rest)
      | cons l ls => simp

theorem insSorted_perm (le : List Char → List Char → Bool) (x : List Char) :
    ∀ l : List (List Char), (insSorted le x l).Perm (x :: l) := by
  intro l
  induction l with
  | nil => exact List.Perm.refl _
  | cons y ys ih =>
    simp only [insSorted]
    split
    · exact List.Perm.refl _
    · exact (ih.cons y).trans (List.Perm.swap x y ys)

theorem stableSort_perm (le : List Char → List Char → Bool) :
    ∀ l : List (List Char), (stableSort le l).Perm l := by
  intro l
  induction l with
  | nil => exact List.Perm.refl _
  | cons x xs ih =>
    exact (insSorted_perm le x (stableSort le xs)).trans (ih.cons x)

/-! ## Helper lemmas: registry -/

theorem insertAll_eq (ws : List Nat) : ∀ r : List Nat, insertAll r ws = r ++ ws := by
  induction ws with
  | nil => intro r; simp [insertAll]
  | cons w ws ih =>
    intro r
    have : insertAll r (w :: ws) = insertAll (r ++ [w]) ws := rfl
    rw [this, ih]
    simp

theorem removeStates_spec (a : Bool) :
    ∀ (ll r : List Nat), r.Nodup → ll.Perm r → ll ≠ [] →
      (removeStates a r ll).countP (fun st => st.isEmpty) = 1 ∧
      (removeStates a r ll).getLast? = some [] := by
  intro ll
  induction ll with
  | nil => intro r _ _ hne; exact absurd rfl hne
  | cons w ws ih =>
    intro r hnd hperm _
    have hw : w ∈ r := hperm.mem_iff.mp (List.mem_cons_self w ws)
    have hstep : removeStates a r (w :: ws) =
        (r.erase w) :: removeStates a (r.erase w) ws := by
      simp [removeStates, dropLocked, hw]
    have hperm' : ws.Perm (r.erase w) :=
      (hperm.trans (List.perm_cons_erase hw)).cons_inv
    cases ws with
    | nil =>
      have hnil : r.erase w = [] := (List.Perm.eq_nil hperm'.symm)
      rw [hstep, hnil]
      constructor
      · rfl
      · rfl
    | cons w2 ws2 =>
      have hne2 : r.erase w ≠ [] := by
        intro h0
        rw [h0] at hperm'
        exact List.cons_ne_nil w2 ws2 (List.Perm.eq_nil hperm')
      obtain ⟨ihc, ihl⟩ := ih (r.erase w) (hnd.erase w) hperm' (List.cons_ne_nil w2 ws2)
      constructor
      · rw [hstep, List.countP_cons, ihc]
        have : (r.erase w).isEmpty = false := by
          cases hre : r.erase w with
          | nil => exact absurd hre hne2
          | cons x xs => rfl
        simp [this]
      · rw [hstep]
        have hsts : removeStates a (r.erase w) (w2 :: ws2) =
            ((dropLocked a (r.erase w) w2).1) ::
              removeStates a ((dropLocked a (r.erase w) w2).1) ws2 := rfl
        rw [hsts] at ihl ⊢
        rw [List.getLast?_cons_cons]
        exact ihl

/-! ## Helper lemma: last-slash search -/

theorem findIdx_slash_append (l : List Char) (hl : '/' ∉ l) :
    (l ++ ['/']).findIdx (fun c => c == '/') = l.length := by
  induction l with
  | nil => rfl
  | cons c t ih =>
    have hc : (c == '/') = false := by
      have : c ≠ '/' := fun h0 => hl (h0 ▸ List.mem_cons_self c t)
      exact beq_eq_false_iff_ne.mpr this
    simp [List.cons_append, List.findIdx_cons, hc,
      ih (fun hm => hl (List.mem_cons_of_mem c hm))]

theorem except_ok_bind {α β : Type} {a : α} {f : α → Except String β} :
    (Except.ok a >>= f) = f a := rfl

theorem except_error_bind {α β : Type} {m : String} {f : α → Except String β} :
    ((Except.error m : Except String α) >>= f) = .error m := rfl

/-! ## Claims -/

/-- C1 (amended): for an Event with neither the expansion bit (2) nor the
chorded bit (8) set, the decoder's four leading field readers recover
`C1`, `C2`, `Q0`, `Q1` from the record produced by `WriteEvent`, but the
full event-record decoder does NOT succeed on that record: the write-back
record carries no `Flag` and `Nr` fields, so `gete` aborts at the `Flag`
field with "event number syntax" and `ReadEvent` reports
"malformed acme event: event number syntax" instead of an Event. -/
theorem writeEvent_partial_decode (e : Event)
    (_h2 : e.flag &&& 2 = 0) (_h8 : e.flag &&& 8 = 0) :
    readTagsRange (WriteEvent e) = .ok ((e.c1, e.c2, e.q0, e.q1), ['\n']) ∧
    ReadEvent (WriteEvent e) = .error "malformed acme event: event number syntax" := by
  have hnl : geten ['\n'] = .error "event number syntax" := rfl
  constructor
  · simp [readTagsRange, WriteEvent, getec, except_ok_bind, List.cons_append,
      geten_natDigits]
  · have hg : gete (WriteEvent e) = .error "event number syntax" := by
      simp [gete, WriteEvent, getec, except_ok_bind, List.cons_append,
        geten_natDigits, hnl, except_error_bind]
    simp [ReadEvent, ReadEvent.go, hg, except_error_bind]

/-- C1 witness: the amended statement at the spec's own example event
(C1='x', C2='X', Q0=10, Q1=12, flags clear). -/
theorem writeEvent_partial_decode_witness :
    readTagsRange (WriteEvent { Event.empty with c1 := 'x', c2 := 'X', q0 := 10, q1 := 12 }) =
      .ok (('x', 'X', 10, 12), ['\n']) ∧
    ReadEvent (WriteEvent { Event.empty with c1 := 'x', c2 := 'X', q0 := 10, q1 := 12 }) =
      .error "malformed acme event: event number syntax" :=
  writeEvent_partial_decode { Event.empty with c1 := 'x', c2 := 'X', q0 := 10, q1 := 12 } rfl rfl

/-- C1 counterexample: decoding the record `WriteEvent` produces for the
event (C1='x', C2='X', Q0=10, Q1=12, Flag=0 — no expansion, no chord)
returns no Event at all, refuting "decoding ... succeeds and reproduces
the Event's C1, C2, Q0 and Q1". -/
theorem writeEvent_roundtrip_fails :
    (ReadEvent (WriteEvent { Event.empty with c1 := 'x', c2 := 'X', q0 := 10, q1 := 12 })).toOption
        = none ∧
    ReadEvent (WriteEvent { Event.empty with c1 := 'x', c2 := 'X', q0 := 10, q1 := 12 }) =
      .error "malformed acme event: event number syntax" :=
  ⟨rfl, rfl⟩

/-- C2 (amended): for a raw stream whose primary record has the expansion
bit set, no chorded bit, and an empty original selection (`Q0 = Q1`),
`ReadEvent` returns the second record's event with `OrigQ0`/`OrigQ1` set
to the primary's original range — and with the PRIMARY record's `Flag`
(the code overwrites the second record's flag with the primary's), not
the second record's flag as the claim states. -/
theorem readEvent_expansion (s s1 s2 : List Char) (e1 e2 : Event)
    (h1 : gete s = .ok (e1, s1)) (hexp : e1.flag &&& 2 ≠ 0)
    (hch : e1.flag &&& 8 = 0) (heq : e1.q0 = e1.q1)
    (h2 : gete s1 = .ok (e2, s2)) :
    ReadEvent s = .ok ({ e2 with origQ0 := e1.q0, origQ1 := e1.q1, flag := e1.flag }, s2) := by
  have hgo : ReadEvent.go s =
      .ok ({ e2 with origQ0 := e1.q0, origQ1 := e1.q1, flag := e1.flag }, s2) := by
    simp [ReadEvent.go, h1, h2, except_ok_bind, hexp, heq, hch, pure, Except.pure]
  simp [ReadEvent, hgo]

/-- C2 witness: the amended statement at a concrete two-record stream
(primary `xx5 5 2 0`, second `yy7 9 3 0`). -/
theorem readEvent_expansion_witness :
    ReadEvent ("xx5 5 2 0 \nyy7 9 3 0 \n".toList) =
      .ok ({ { Event.empty with c1 := 'y', c2 := 'y', q0 := 7, q1 := 9, flag := 3 } with
               origQ0 := 5, origQ1 := 5, flag := 2 }, []) := by
  have h := readEvent_expansion ("xx5 5 2 0 \nyy7 9 3 0 \n".toList)
    ("yy7 9 3 0 \n".toList) []
    { Event.empty with c1 := 'x', c2 := 'x', q0 := 5, q1 := 5, flag := 2 }
    { Event.empty with c1 := 'y', c2 := 'y', q0 := 7, q1 := 9, flag := 3 }
    rfl (by decide) (by decide) (by decide) rfl
  exact h

/-- C2 counterexample: on the stream whose primary record is
`xx5 5 2 0` (expansion bit set, empty selection) and whose second
record is `yy7 9 3 0` (flag field 3), the decoded event's `Flag` is 2 —
the primary's — not the second record's 3, refuting "Flag equal[s] the
second record's ... Flag". -/
theorem readEvent_expansion_keeps_primary_flag :
    (gete ("yy7 9 3 0 \n".toList)).toOption.map (fun p => p.1.flag) = some 3 ∧
    (ReadEvent ("xx5 5 2 0 \nyy7 9 3 0 \n".toList)).toOption.map
        (fun p => (p.1.q0, p.1.q1, p.1.flag, p.1.origQ0, p.1.origQ1)) =
      some (7, 9, 2, 5, 5) :=
  ⟨rfl, rfl⟩

/-- C3: for every raw record whose decoded `Nr` field exceeds 256
(`eventSize`), `ReadEvent` reports the recoverable protocol-violation
error "malformed acme event: event string too long" and returns no
Event. -/
theorem readEvent_oversized_text
    (s s1 s2 s3 s4 s5 s6 : List Char) (c1 c2 : Char) (q0 q1 fl nr : Nat)
    (hc1 : getec s = .ok (c1, s1)) (hc2 : getec s1 = .ok (c2, s2))
    (hq0 : geten s2 = .ok (q0, s3)) (hq1 : geten s3 = .ok (q1, s4))
    (hfl : geten s4 = .ok (fl, s5)) (hnr : geten s5 = .ok (nr, s6))
    (hbig : nr > 256) :
    ReadEvent s = .error "malformed acme event: event string too long" := by
  have hg : gete s = .error "event string too long" := by
    simp only [gete, hc1, hc2, hq0, hq1, hfl, hnr, except_ok_bind]
    rw [if_pos]
    exact hbig
  simp [ReadEvent, ReadEvent.go, hg, except_error_bind]

/-- C3 witness: the record `xx1 2 3 257 ...` (`Nr` = 257 > 256) yields
the protocol-violation error. -/
theorem readEvent_oversized_text_witness :
    (257 : Nat) > 256 ∧
    ReadEvent ("xx1 2 3 257 \n".toList) =
      .error "malformed acme event: event string too long" :=
  ⟨by decide,
   readEvent_oversized_text ("xx1 2 3 257 \n".toList)
     ("x1 2 3 257 \n".toList) ("1 2 3 257 \n".toList) ("2 3 257 \n".toList)
     ("3 257 \n".toList) ("257 \n".toList) ("\n".toList)
     'x' 'x' 1 2 3 257 rfl rfl rfl rfl rfl rfl (by decide)⟩

/-- C4: every run of the event-delivery task (`eventReader`) over a raw
stream eventually hits a decode/transport failure and then performs, in
order: one empty sentinel Event on the channel, removal of the window
from the registry, closing of the channel — and nothing after that. -/
theorem eventReader_shutdown_order (s : List Char) :
    ∃ es : List Event, eventReader s =
      es.map Action.send ++ [Action.send Event.empty, Action.drop, Action.close] :=
  eventReaderGo_trace (s.length + 1) s (Nat.lt_succ_self _)

/-- C5: registry removal is idempotent — removing a window that is not a
member leaves the registry (and the process) unchanged — and inserting
the windows of `l` into an empty registry and then removing all of them
in any order `ll` makes the registry empty exactly once, at the final
removal. -/
theorem registry_removal (flag : Bool) :
    (∀ (r : List Nat) (w : Nat), w ∉ r → dropLocked flag r w = (r, false)) ∧
    (∀ l ll : List Nat, l.Nodup → ll.Perm l → l ≠ [] →
      (removeStates flag (insertAll [] l) ll).countP (fun st => st.isEmpty) = 1 ∧
      (removeStates flag (insertAll [] l) ll).getLast? = some []) := by
  constructor
  · intro r w hw
    simp [dropLocked, hw]
  · intro l ll hnd hperm hne
    rw [insertAll_eq]
    simp only [List.nil_append]
    have hlne : ll ≠ [] := by
      intro h0
      subst h0
      exact hne (List.Perm.eq_nil hperm.symm)
    exact removeStates_spec flag ll l hnd hperm hlne

/-- C5 witness: removing the non-member 5 from `[1, 2]` is a no-op, and
inserting windows 1, 2 then removing them in the order 2, 1 reaches the
empty registry exactly once, at the end. -/
theorem registry_removal_witness :
    dropLocked false [1, 2] 5 = ([1, 2], false) ∧
    (removeStates false (insertAll [] [1, 2]) [2, 1]).countP (fun st => st.isEmpty) = 1 ∧
    (removeStates false (insertAll [] [1, 2]) [2, 1]).getLast? = some [] :=
  ⟨(registry_removal false).1 [1, 2] 5 (by decide),
   ((registry_removal false).2 [1, 2] [2, 1] (by decide) (by decide) (by decide)).1,
   ((registry_removal false).2 [1, 2] [2, 1] (by decide) (by decide) (by decide)).2⟩

/-- C6: with auto-exit enabled, removing the final registered window
calls `os.Exit(0)`; with it disabled, the same removal does not; and a
removal leaving the registry non-empty never exits. -/
theorem autoExit_behavior :
    (∀ w : Nat, dropLocked true [w] w = ([], true)) ∧
    (∀ w : Nat, dropLocked false [w] w = ([], false)) ∧
    (∀ (a : Bool) (r : List Nat) (w : Nat),
      (dropLocked a r w).1 ≠ [] → (dropLocked a r w).2 = false) := by
  refine ⟨?_, ?_, ?_⟩
  · intro w; simp [dropLocked]
  · intro w; simp [dropLocked]
  · intro a r w hne
    by_cases hw : w ∈ r
    · simp only [dropLocked, if_pos hw] at hne ⊢
      cases hre : r.erase w with
      | nil => rw [hre] at hne; exact absurd rfl hne
      | cons x xs => simp [hre]
    · simp [dropLocked, hw]

/-- C6 witness: window 3 alone in the registry — removal exits iff the
flag is set; removing 2 from `[1, 2]` leaves `[1]` and never exits. -/
theorem autoExit_behavior_witness :
    dropLocked true [3] 3 = ([], true) ∧
    dropLocked false [3] 3 = ([], false) ∧
    (dropLocked true [1, 2] 2).2 = false :=
  ⟨autoExit_behavior.1 3, autoExit_behavior.2.1 3,
   autoExit_behavior.2.2 true [1, 2] 2 (by decide)⟩

/-- C7: the dispatcher splits the command into a whitespace-delimited
verb and a trimmed remainder; the command "Foo bar baz" with a
registered `ExecFoo` accepting one string is dispatched to it with
argument "bar baz", and a command whose verb has no verb-specific
method is passed unchanged to the generic `handler.Execute` fallback. -/
theorem execute_dispatch :
    (∀ (h : Handler) (oe : Bool),
      h.findMethod ("Foo".toList) = some ⟨1, 0, oe, true⟩ →
      execute h ("Foo bar baz".toList) =
        (true, .callVerb ("Foo".toList) (some ("bar baz".toList)))) ∧
    (∀ (h : Handler) (cmd : List Char),
      h.findMethod (splitVerbArg cmd).1 = none →
      execute h cmd = (h.executeCb cmd, .fallback cmd)) := by
  constructor
  · intro h oe hfm
    have hsplit : splitVerbArg ("Foo bar baz".toList) =
        ("Foo".toList, "bar baz".toList) := by decide
    simp only [execute]
    rw [hsplit]
    dsimp only
    rw [hfm]
    simp
  · intro h cmd hnone
    rcases hsplit : splitVerbArg cmd with ⟨v, a⟩
    rw [hsplit] at hnone
    simp only at hnone
    simp [execute, hsplit, hnone]

/-- C7 witness: the dispatch at `sampleHandler` — "Foo bar baz" invokes
the verb method with "bar baz"; "Bar x" has no method and falls back. -/
theorem execute_dispatch_witness :
    execute sampleHandler ("Foo bar baz".toList) =
      (true, .callVerb ("Foo".toList) (some ("bar baz".toList))) ∧
    execute sampleHandler ("Bar x".toList) =
      (sampleHandler.executeCb ("Bar x".toList), .fallback ("Bar x".toList)) :=
  ⟨execute_dispatch.1 sampleHandler false (by decide),
   execute_dispatch.2 sampleHandler ("Bar x".toList) (by decide)⟩

/-- C8 (amended): Sort splits on newline and stably sorts the lines
(the sorted lines are a permutation of the originals); an input that
ends with a newline yields an output that ends with a newline, and the
spec's example behaves as claimed — but the converse direction of the
claimed "iff" is false (see the counterexample: empty input gains a
newline). -/
theorem sortLines_spec (less : List Char → List Char → Bool) (data : List Char)
    (hnl : data.getLast? = some '\n') :
    (sortLines less data).getLast? = some '\n' ∧
    (∀ (le : List Char → List Char → Bool) (l : List (List Char)),
      (stableSort le l).Perm l) ∧
    sortLines ascLess ("b\na\nc\n".toList) = "a\nb\nc\n".toList ∧
    sortLines ascLess ("b\na\nc".toList) = "a\nb\nc".toList := by
  refine ⟨?_, stableSort_perm, by decide, by decide⟩
  rcases List.eq_nil_or_concat data with h0 | ⟨d, c, rfl⟩
  · subst h0; simp at hnl
  · simp only [List.concat_eq_append] at hnl ⊢
    rw [List.getLast?_concat] at hnl
    have hc : c = '\n' := by simpa using hnl
    subst hc
    have hsl := splitNL_newline d
    simp only [sortLines, hsl]
    rw [if_pos (List.getLast?_concat _)]
    exact List.getLast?_concat _

/-- C8 witness: the amended statement at the one-line input "x\n". -/
theorem sortLines_spec_witness :
    (sortLines ascLess ("x\n".toList)).getLast? = some '\n' ∧
    (∀ (le : List Char → List Char → Bool) (l : List (List Char)),
      (stableSort le l).Perm l) ∧
    sortLines ascLess ("b\na\nc\n".toList) = "a\nb\nc\n".toList ∧
    sortLines ascLess ("b\na\nc".toList) = "a\nb\nc".toList :=
  sortLines_spec ascLess ("x\n".toList) (by decide)

/-- C8 counterexample: the empty input text does not end with a
newline, yet Sort writes back a single newline — refuting "a trailing
newline appended if and only if the input ended with one". -/
theorem sortLines_empty_adds_newline :
    sortLines ascLess [] = ['\n'] ∧ ([] : List Char).getLast? = none :=
  ⟨by decide, rfl⟩

/-- C9 (amended): `Err` derives the error-window name as the directory
portion of the source path followed by "+Errors", where a bare name (no
slash) and a root path ("/name") yield exactly "+Errors"; but a
"./name" path is NOT normalized: its directory portion is "./" (not the
checked "."), so the name is "./+Errors". -/
theorem errName_spec :
    (∀ src : List Char, src.contains '/' = false → errName src = "+Errors".toList) ∧
    (∀ nm : List Char, nm.contains '/' = false → errName ('/' :: nm) = "+Errors".toList) ∧
    errName ("./name".toList) = "./+Errors".toList := by
  refine ⟨?_, ?_, by decide⟩
  · intro src h
    have h' : '/' ∉ src := by simpa using h
    simp [errName, pathSplit, h']
  · intro nm h
    have hmem : '/' ∉ nm := by simpa using h
    have hidx : (('/' :: nm).reverse).findIdx (fun c => c == '/') = nm.length := by
      rw [List.reverse_cons,
        findIdx_slash_append nm.reverse (fun hc => hmem (List.mem_reverse.mp hc))]
      exact List.length_reverse nm
    have hcontains : ('/' :: nm).contains '/' = true := by simp
    have hi : ('/' :: nm).length - (('/' :: nm).reverse).findIdx (fun c => c == '/') = 1 := by
      rw [hidx, List.length_cons]
      omega
    simp only [errName, pathSplit, hcontains, if_true, hi]
    simp [List.take_succ_cons]

/-- C9 witness: the amended statement at the bare name "name" and the
root path "/name". -/
theorem errName_spec_witness :
    errName ("name".toList) = "+Errors".toList ∧
    errName ('/' :: "name".toList) = "+Errors".toList ∧
    errName ("./name".toList) = "./+Errors".toList :=
  ⟨errName_spec.1 ("name".toList) (by decide),
   errName_spec.2.1 ("name".toList) (by decide),
   errName_spec.2.2⟩

/-- C9 counterexample: for the source path "./name" the derived name is
"./+Errors", not the claimed "+Errors" — the directory portion is "./",
which is neither of the normalized values "/" and ".". -/
theorem errName_dotslash_not_normalized :
    errName ("./name".toList) = "./+Errors".toList ∧
    "./+Errors".toList ≠ "+Errors".toList :=
  ⟨by decide, by decide⟩

/-- C10: when `Show` finds a registered window with the requested name
but the "show" control write fails, it drops that window from the
registry and returns nil; with distinct windows, a subsequent lookup of
the same name no longer finds that window. -/
theorem show_drop_on_ctl_failure (names : Nat → String) (ctlOk : Nat → Bool)
    (aex : Bool) (name : String) (r : List Nat) (w : Nat)
    (hnd : r.Nodup) (hfind : findByName names name r = some w)
    (hctl : ctlOk w = false) :
    Show names ctlOk aex name r = (none, r.erase w, aex && (r.erase w).isEmpty) ∧
    findByName names name (r.erase w) ≠ some w := by
  have hw : w ∈ r := List.mem_of_find?_eq_some hfind
  constructor
  · simp [Show, findByName] at hfind ⊢
    simp [hfind, hctl, dropLocked, hw]
  · intro hcontra
    have hmem : w ∈ r.erase w := List.mem_of_find?_eq_some hcontra
    exact ((hnd.mem_erase_iff).mp hmem).1 rfl

/-- C10 witness: a single registered window named "w" whose control
write fails — `Show` drops it and returns nil, and the next lookup
fails. -/
theorem show_drop_on_ctl_failure_witness :
    Show (fun _ => "w") (fun _ => false) false "w" [7] = (none, [], false) ∧
    findByName (fun _ => "w") "w" ([7].erase 7) ≠ some 7 :=
  show_drop_on_ctl_failure (fun _ => "w") (fun _ => false) false "w" [7] 7
    (by decide) rfl rfl

end Acme
